import Mathlib

/-!
Shallow embedding of the repository's two source files:
  * `insert_custom_kg.py` — text-to-knowledge-graph parser (`parse_kg_from_txt`)
    and its validator (`validate_kg_data`);
  * `retrieval_logger.py` — the retrieval log store (`RetrievalLogger`).

Text is modelled as `List Char`.  The Python regular expressions used by the
parser are hand-compiled into deterministic scanners: every star in those
patterns ranges over a single character class, so lazy/greedy matching
collapses to the explicit first-occurrence scans implemented below.
Scanning loops that advance by a computed amount carry an explicit fuel
argument; callers pass the input length, which bounds the number of steps
since every iteration consumes at least one character.
-/

namespace KG

/-- ASCII whitespace, the `\s` class of the source's patterns and the
characters removed by Python's `str.strip()` on the inputs in scope. -/
def isWs (c : Char) : Bool :=
  c == ' ' || c == '\t' || c == '\n' || c == '\r' || c == '\x0b' || c == '\x0c'

/-- The `\d` class. -/
def isDig (c : Char) : Bool := '0' ≤ c && c ≤ '9'

/-- Python `str.strip()`. -/
def stripChars (s : List Char) : List Char :=
  ((s.dropWhile isWs).reverse.dropWhile isWs).reverse

/-- Match a literal at the head of the input, returning the rest. -/
def lit? : List Char → List Char → Option (List Char)
  | [], s => some s
  | _ :: _, [] => none
  | l :: ls, c :: cs => if c == l then lit? ls cs else none

/-- Split at the first `'|'`: text before it and the rest after it. -/
def upToPipe : List Char → Option (List Char × List Char)
  | [] => none
  | c :: cs =>
    if c == '|' then some ([], cs)
    else
      match upToPipe cs with
      | none => none
      | some (a, r) => some (c :: a, r)

/-- Split at the first `')'`: text before it and the rest after it. -/
def upToParen : List Char → Option (List Char × List Char)
  | [] => none
  | c :: cs =>
    if c == ')' then some ([], cs)
    else
      match upToParen cs with
      | none => none
      | some (a, r) => some (c :: a, r)

/-- `\s*\|`: skip whitespace, then require a pipe. -/
def expectPipe (s : List Char) : Option (List Char) :=
  match s.dropWhile isWs with
  | '|' :: r => some r
  | _ => none

/-- One `\s*([^|]*?)\s*\|` group of the record patterns: the text up to the
next pipe, trimmed (the source also calls `.strip()` on each group). -/
def pipeField (s : List Char) : Option (List Char × List Char) :=
  match upToPipe s with
  | none => none
  | some (a, r) => some (stripChars a, r)

/-- The lookahead `(?=\s*$|\s*\()` of the entity pattern under
`re.MULTILINE`: some whitespace prefix ends at a line end or before `'('`. -/
def lookaheadEnt : List Char → Bool
  | [] => true
  | c :: rest => c == '\n' || c == '(' || (isWs c && lookaheadEnt rest)

/-- Try to close `\s*\)(?=\s*$|\s*\()` at the current position. -/
def tryClose (s : List Char) : Option (List Char) :=
  match s.dropWhile isWs with
  | ')' :: u => if lookaheadEnt u then some u else none
  | _ => none

/-- The lazy `(.*?)\s*\)(?=\s*$|\s*\()` tail of the entity pattern:
extend the description one (non-newline) character at a time, stopping at
the first position where the close succeeds. -/
def descScan : List Char → List Char → Option (List Char × List Char)
  | _, [] => none
  | acc, c :: cs =>
    match tryClose (c :: cs) with
    | some u => some (acc.reverse, u)
    | none => if c == '\n' then none else descScan (c :: acc) cs

/-- Literal head of the entity pattern. -/
def entLit : List Char := "(\"entity\"".data

/-- Literal head of the relationship pattern. -/
def relLit : List Char := "(\"relationship\"".data

/-- Body of the entity pattern after its literal head:
`\s*\|\s*([^|]*?)\s*\|\s*([^|]*?)\s*\|\s*(.*?)\s*\)(?=\s*$|\s*\()`. -/
def entBody (s : List Char) : Option ((List Char × List Char × List Char) × List Char) :=
  match expectPipe s with
  | none => none
  | some s1 =>
    match pipeField s1 with
    | none => none
    | some (f1, s2) =>
      match pipeField s2 with
      | none => none
      | some (f2, s3) =>
        match descScan [] (s3.dropWhile isWs) with
        | none => none
        | some (d, s4) => some ((f1, f2, stripChars d), s4)

/-- Body of the relationship pattern after its literal head:
`\s*\|\s*([^|]*?)\s*\|\s*([^|]*?)\s*\|\s*([^|]*?)\s*\|\s*(\d+)\s*\|\s*([^)]*?)\s*\)`. -/
def relBody (s : List Char) :
    Option ((List Char × List Char × List Char × List Char × List Char) × List Char) :=
  match expectPipe s with
  | none => none
  | some s1 =>
    match pipeField s1 with
    | none => none
    | some (f1, s2) =>
      match pipeField s2 with
      | none => none
      | some (f2, s3) =>
        match pipeField s3 with
        | none => none
        | some (f3, s4) =>
          let s5 := s4.dropWhile isWs
          let ds := s5.takeWhile isDig
          if ds.isEmpty then none
          else
            match expectPipe (s5.dropWhile isDig) with
            | none => none
            | some s6 =>
              match upToParen s6 with
              | none => none
              | some (k, s7) => some ((f1, f2, f3, ds, stripChars k), s7)

/-- `re.findall` of the entity pattern: scan left to right, attempt a match
at each occurrence of the literal head, continue after a successful match. -/
def scanEntAux : ℕ → List Char → List (List Char × List Char × List Char)
  | 0, _ => []
  | _, [] => []
  | fuel + 1, c :: rest =>
    match lit? entLit (c :: rest) with
    | some s =>
      match entBody s with
      | some (e, rem) => e :: scanEntAux fuel rem
      | none => scanEntAux fuel rest
    | none => scanEntAux fuel rest

def scanEntities (s : List Char) : List (List Char × List Char × List Char) :=
  scanEntAux s.length s

/-- `re.findall` of the relationship pattern. -/
def scanRelAux : ℕ → List Char → List (List Char × List Char × List Char × List Char × List Char)
  | 0, _ => []
  | _, [] => []
  | fuel + 1, c :: rest =>
    match lit? relLit (c :: rest) with
    | some s =>
      match relBody s with
      | some (e, rem) => e :: scanRelAux fuel rem
      | none => scanRelAux fuel rest
    | none => scanRelAux fuel rest

def scanRelationships (s : List Char) : List (List Char × List Char × List Char × List Char × List Char) :=
  scanRelAux s.length s

/-! ### Chunk splitting (`No\.: (\d+) of all the chunks`) -/

def mkHead : List Char := "No.: ".data

def mkTail : List Char := " of all the chunks".data

/-- Try the chunk-boundary marker at the current position; on success return
the captured digits and the rest after the marker. -/
def markerAt (s : List Char) : Option (List Char × List Char) :=
  match lit? mkHead s with
  | none => none
  | some s1 =>
    let ds := s1.takeWhile isDig
    if ds.isEmpty then none
    else
      match lit? mkTail (s1.dropWhile isDig) with
      | none => none
      | some s2 => some (ds, s2)

/-- First marker at or after the current position (`re.finditer`'s first hit). -/
def findMarker : ℕ → List Char → Option (List Char × List Char)
  | 0, _ => none
  | _, [] => none
  | fuel + 1, c :: rest =>
    match markerAt (c :: rest) with
    | some res => some res
    | none => findMarker fuel rest

/-- Collect `(digits, segment)` pairs: each segment runs from the end of one
marker to the start of the next (or the end of input), as in the source's
`full_text[match.end():next.start()]`. -/
def collectSegs : ℕ → List Char → List Char → List Char → List (List Char × List Char)
  | _, ds, acc, [] => [(ds, acc.reverse)]
  | 0, ds, acc, rest => [(ds, acc.reverse ++ rest)]
  | fuel + 1, ds, acc, c :: rest =>
    match markerAt (c :: rest) with
    | some (ds2, rest2) => (ds, acc.reverse) :: collectSegs fuel ds2 [] rest2
    | none => collectSegs fuel ds (c :: acc) rest

/-- The Chunk Splitter: one `(chunk_id digits, segment text)` per marker found. -/
def splitChunks (txt : List Char) : List (List Char × List Char) :=
  match findMarker txt.length txt with
  | none => []
  | some (ds, rest) => collectSegs rest.length ds [] rest

/-! ### Original-text extraction
`re.search(r'original text:\s*(.*?)(?=total tokens:|deepseek-v3 output:|$)', chunk_text, re.DOTALL)` -/

def origLabel : List Char := "original text:".data

/-- Rest of the input after the first occurrence of a literal. -/
def findAfter (l : List Char) : List Char → Option (List Char)
  | [] => if l.isEmpty then some [] else none
  | c :: rest =>
    match lit? l (c :: rest) with
    | some r => some r
    | none => findAfter l rest

/-- The lookahead `(?=total tokens:|deepseek-v3 output:|$)` (no `re.MULTILINE`
here, so `$` means end of input or a sole trailing newline). -/
def lookOrigEnd (u : List Char) : Bool :=
  "total tokens:".data.isPrefixOf u || "deepseek-v3 output:".data.isPrefixOf u ||
    u.isEmpty || u == ['\n']

/-- The lazy `(.*?)` under `re.DOTALL`: grow the capture until the lookahead
first succeeds (it always succeeds at the end of input). -/
def origScan : List Char → List Char → List Char
  | acc, [] => acc.reverse
  | acc, c :: cs => if lookOrigEnd (c :: cs) then acc.reverse else origScan (c :: acc) cs

/-- Content of the chunk record for a chunk text, when the label is present. -/
def chunkContent (ct : List Char) : Option (List Char) :=
  match findAfter origLabel ct with
  | none => none
  | some rest => some (stripChars (origScan [] (rest.dropWhile isWs)))

/-! ### Binary64 weight (`float(weight)` on the captured digit string) -/

/-- Value of a decimal digit string (`int()` / the integer part of `float()`). -/
def natOfDigits (ds : List Char) : ℕ :=
  ds.foldl (fun n c => 10 * n + (c.toNat - '0'.toNat)) 0

def bitLenAux : ℕ → ℕ → ℕ
  | 0, _ => 0
  | fuel + 1, n => if n = 0 then 0 else bitLenAux fuel (n / 2) + 1

/-- Number of bits of a natural (0 for 0). -/
def bitLen (n : ℕ) : ℕ := bitLenAux n n

/-- Round a natural to the nearest binary64-representable value
(53 significant bits, ties to even), as CPython's `float()` does when
parsing an integer numeral. -/
def roundB64 (n : ℕ) : ℕ :=
  if bitLen n ≤ 53 then n
  else
    let e := bitLen n - 53
    let q := n / 2 ^ e
    let r := n % 2 ^ e
    if r < 2 ^ (e - 1) then q * 2 ^ e
    else if 2 ^ (e - 1) < r then (q + 1) * 2 ^ e
    else if q % 2 = 0 then q * 2 ^ e else (q + 1) * 2 ^ e

/-- `float()` of a nonnegative integer numeral: the rounded value, or `none`
for overflow to infinity. -/
def floatOfNat (n : ℕ) : Option ℕ :=
  if roundB64 n < 2 ^ 1024 then some (roundB64 n) else none

/-- The stored weight of a relationship: `float(weight)` on the digits
captured by the relationship pattern. -/
def relWeight (ds : List Char) : Option ℕ := floatOfNat (natOfDigits ds)

/-! ### Records and payload -/

structure Entity where
  entity_name : String
  entity_type : String
  description : String
  source_id : String
deriving DecidableEq

structure Relationship where
  src_id : String
  tgt_id : String
  description : String
  keywords : String
  weight : Option ℕ
  source_id : String
deriving DecidableEq

structure Chunk where
  content : String
  source_id : String
  source_chunk_index : ℕ
deriving DecidableEq

structure KGPayload where
  entities : List Entity
  relationships : List Relationship
  chunks : List Chunk
deriving DecidableEq

def sourceId (ds : List Char) : String := "chunk_" ++ ds.asString

/-- Chunk records contributed by one chunk text (zero or one). -/
def chunkRecs (ds ct : List Char) : List Chunk :=
  match chunkContent ct with
  | some content => [⟨content.asString, sourceId ds, natOfDigits ds⟩]
  | none => []

/-- Entity records contributed by one chunk text. -/
def entRecs (ds ct : List Char) : List Entity :=
  (scanEntities ct).map fun t =>
    { entity_name := t.1.asString
      entity_type := t.2.1.asString
      description := t.2.2.asString
      source_id := sourceId ds }

/-- Relationship records contributed by one chunk text. -/
def relRecs (ds ct : List Char) : List Relationship :=
  (scanRelationships ct).map fun t =>
    { src_id := t.1.asString
      tgt_id := t.2.1.asString
      description := t.2.2.1.asString
      keywords := t.2.2.2.2.asString
      weight := relWeight t.2.2.2.1
      source_id := sourceId ds }

/-- The parse loop over the split pieces: a piece whose stripped text is
empty is skipped; otherwise its chunk/entity/relationship records are
accumulated in order. -/
def processPieces : List (List Char × List Char) → List Chunk × List Entity × List Relationship
  | [] => ([], [], [])
  | (ds, seg) :: rest =>
    let ct := stripChars seg
    if ct.isEmpty then processPieces rest
    else
      let (cs, es, rs) := processPieces rest
      (chunkRecs ds ct ++ cs, entRecs ds ct ++ es, relRecs ds ct ++ rs)

/-- Same loop without the empty-skip branch (used to state the skipping
behaviour as a filtering refinement). -/
def processPiecesAll : List (List Char × List Char) → List Chunk × List Entity × List Relationship
  | [] => ([], [], [])
  | (ds, seg) :: rest =>
    let ct := stripChars seg
    let (cs, es, rs) := processPiecesAll rest
    (chunkRecs ds ct ++ cs, entRecs ds ct ++ es, relRecs ds ct ++ rs)

def extractedChunks (txt : List Char) : List Chunk := (processPieces (splitChunks txt)).1

def extractedEntities (txt : List Char) : List Entity := (processPieces (splitChunks txt)).2.1

def extractedRels (txt : List Char) : List Relationship := (processPieces (splitChunks txt)).2.2

/-! ### Validator (`validate_kg_data`) -/

/-- The entity loop: `raise ValueError` at the first empty name or type
(Python's falsiness check on a string is emptiness). -/
def checkEntities : List Entity → Except String Unit
  | [] => .ok ()
  | e :: rest =>
    if e.entity_name = "" then .error "Entity name cannot be empty"
    else if e.entity_type = "" then .error "Entity type cannot be empty"
    else checkEntities rest

/-- The relationship loop: `raise ValueError` at the first empty endpoint
(empty keywords only produce a warning). -/
def checkRelationships : List Relationship → Except String Unit
  | [] => .ok ()
  | r :: rest =>
    if r.src_id = "" then .error "Source ID cannot be empty"
    else if r.tgt_id = "" then .error "Target ID cannot be empty"
    else checkRelationships rest

/-- The `entity_names` set accumulated by the validator. -/
def entityNames (es : List Entity) : Finset String := (es.map (·.entity_name)).toFinset

/-- One step of the `missing_entities` accumulation. -/
def missStep (es : List Entity) (m : Finset String) (r : Relationship) : Finset String :=
  let m1 := if r.src_id ∈ entityNames es then m else insert r.src_id m
  if r.tgt_id ∈ entityNames es then m1 else insert r.tgt_id m1

/-- The `missing_entities` set reported (as a warning only) by the validator. -/
def missingEntities (es : List Entity) (rs : List Relationship) : Finset String :=
  rs.foldl (missStep es) ∅

/-- All relationship endpoints. -/
def relEndpoints (rs : List Relationship) : Finset String :=
  (rs.map (·.src_id)).toFinset ∪ (rs.map (·.tgt_id)).toFinset

/-- `validate_kg_data`: entity checks, then relationship checks, then the
no-chunks check; warnings do not affect the result. -/
def validate_kg_data (es : List Entity) (rs : List Relationship) (cs : List Chunk) :
    Except String Unit :=
  match checkEntities es with
  | .error m => .error m
  | .ok _ =>
    match checkRelationships rs with
    | .error m => .error m
    | .ok _ => if cs.isEmpty then .error "No chunks found" else .ok ()

/-- `parse_kg_from_txt`: split, extract, validate, and either raise or
return the assembled payload. -/
def parse_kg_from_txt (txt : List Char) : Except String KGPayload :=
  match validate_kg_data (extractedEntities txt) (extractedRels txt) (extractedChunks txt) with
  | .error m => .error m
  | .ok _ => .ok ⟨extractedEntities txt, extractedRels txt, extractedChunks txt⟩

/-- The data-integrity error condition of the spec: an empty entity name or
type, an empty relationship endpoint, or zero chunks. -/
def integrityViolation (es : List Entity) (rs : List Relationship) (cs : List Chunk) : Prop :=
  (∃ e ∈ es, e.entity_name = "" ∨ e.entity_type = "") ∨
    (∃ r ∈ rs, r.src_id = "" ∨ r.tgt_id = "") ∨ cs = []

instance (es rs cs) : Decidable (integrityViolation es rs cs) := by
  unfold integrityViolation; infer_instance

end KG

namespace RL

/-!  The retrieval log store.  A log file's content is modelled as the list
of JSON values on its lines (`json.dump` writes one value per line and
never emits a raw newline); the file system of the log directory is an
association list from file name to content. -/

inductive Json where
  | null : Json
  | bool (b : Bool) : Json
  | num (q : ℚ) : Json
  | str (s : String) : Json
  | arr (xs : List Json) : Json
  | obj (kvs : List (String × Json)) : Json

/-- The `RetrievalResult` dataclass.  `entities`, `relationships`,
`text_chunks` hold arbitrary JSON mappings and `metadata` an arbitrary JSON
value, so those fields are kept as raw JSON. -/
structure RetrievalResult where
  query : String
  query_mode : String
  timestamp : ℚ
  entities : List Json
  relationships : List Json
  text_chunks : List Json
  high_level_keywords : List String
  low_level_keywords : List String
  metadata : Json
  final_response : Option String

/-- `asdict` + `json.dump`: the serialized form of one record. -/
def toJson (r : RetrievalResult) : Json :=
  .obj
    [("query", .str r.query),
     ("query_mode", .str r.query_mode),
     ("timestamp", .num r.timestamp),
     ("entities", .arr r.entities),
     ("relationships", .arr r.relationships),
     ("text_chunks", .arr r.text_chunks),
     ("high_level_keywords", .arr (r.high_level_keywords.map Json.str)),
     ("low_level_keywords", .arr (r.low_level_keywords.map Json.str)),
     ("metadata", r.metadata),
     ("final_response", match r.final_response with | none => .null | some s => .str s)]

def rrFields : List String :=
  ["query", "query_mode", "timestamp", "entities", "relationships", "text_chunks",
   "high_level_keywords", "low_level_keywords", "metadata", "final_response"]

def asStr : Json → Option String
  | .str s => some s
  | _ => none

def asNum : Json → Option ℚ
  | .num q => some q
  | _ => none

def asArr : Json → Option (List Json)
  | .arr xs => some xs
  | _ => none

def strsOf : List Json → Option (List String)
  | [] => some []
  | .str s :: rest => (strsOf rest).map (s :: ·)
  | _ :: _ => none

def asStrList : Json → Option (List String)
  | .arr xs => strsOf xs
  | _ => none

/-- `final_response` is optional with default `None`; a JSON `null` also
deserializes to `None`. -/
def frOf : Option Json → Option (Option String)
  | none => some none
  | some .null => some none
  | some (.str s) => some (some s)
  | some _ => none

/-- `RetrievalResult(**json.loads(line))`: deserialize one line; a line
that is not a well-typed record (per the data model) fails. -/
def fromJson (j : Json) : Option RetrievalResult :=
  match j with
  | .obj kvs =>
    if kvs.all (fun kv => rrFields.contains kv.1) then
      ((kvs.lookup "query").bind asStr).bind fun q =>
      ((kvs.lookup "query_mode").bind asStr).bind fun qm =>
      ((kvs.lookup "timestamp").bind asNum).bind fun ts =>
      ((kvs.lookup "entities").bind asArr).bind fun en =>
      ((kvs.lookup "relationships").bind asArr).bind fun re =>
      ((kvs.lookup "text_chunks").bind asArr).bind fun tc =>
      ((kvs.lookup "high_level_keywords").bind asStrList).bind fun hk =>
      ((kvs.lookup "low_level_keywords").bind asStrList).bind fun lk =>
      (kvs.lookup "metadata").bind fun md =>
      (frOf (kvs.lookup "final_response")).bind fun fr =>
      some ⟨q, qm, ts, en, re, tc, hk, lk, md, fr⟩
    else none
  | _ => none

/-- `log_retrieval`: serialize and append one line to the session file. -/
def log_retrieval (lines : List Json) (r : RetrievalResult) : List Json :=
  lines ++ [toJson r]

/-- Deserialize all the lines of a file; the loop aborts at the first bad
line, so any failure yields no records at all. -/
def decodeAll : List Json → Option (List RetrievalResult)
  | [] => some []
  | j :: rest =>
    match fromJson j with
    | none => none
    | some r =>
      match decodeAll rest with
      | none => none
      | some rs => some (r :: rs)

/-- `load_logs` applied to a file's lines: the decoded records, or `[]` when
any line fails (the exception handler returns an empty list). -/
def load_logs_lines (lines : List Json) : List RetrievalResult :=
  (decodeAll lines).getD []

/-- The log directory: file name ↦ lines. -/
def LogFS : Type := List (String × List Json)

/-- `load_logs`: a missing file yields `[]` with a warning. -/
def load_logs (fs : LogFS) (path : String) : List RetrievalResult :=
  match List.lookup path fs with
  | none => []
  | some lines => load_logs_lines lines

/-- The glob `retrieval_log_*.jsonl` on a file name. -/
def isSessionLog (n : String) : Bool :=
  n.startsWith "retrieval_log_" && n.endsWith ".jsonl" &&
    "retrieval_log_".length + ".jsonl".length ≤ n.length

/-- `sorted(self.log_dir.glob("retrieval_log_*.jsonl"))`. -/
def globLogs (names : List String) : List String :=
  (names.filter isSessionLog).insertionSort (· ≤ ·)

/-- `export_to_json`: `some content` when the output file is written with
the given JSON array, `none` when the call returns without writing. -/
def export_to_json (fs : LogFS) (source : Option String) : Option (List Json) :=
  match source with
  | some src => some ((load_logs fs src).map toJson)
  | none =>
    let files := globLogs (fs.map Prod.fst)
    if files.isEmpty then none
    else some (((files.map (load_logs fs)).flatten).map toJson)

/-! ### Statistics -/

structure RetrievalStats where
  total_queries : ℕ
  mode_distribution : List (String × ℕ)
  avg_entities_per_query : ℚ
  avg_relationships_per_query : ℚ
  avg_chunks_per_query : ℚ
  queries_with_no_results : ℕ
deriving DecidableEq

def keyMem (d : List (String × ℕ)) (m : String) : Bool := d.any (fun kv => kv.1 == m)

/-- `stats["mode_distribution"][mode] = ...get(mode, 0) + 1`: update in
place when present, append when new. -/
def bumpMode (d : List (String × ℕ)) (m : String) : List (String × ℕ) :=
  if keyMem d m then d.map (fun kv => if kv.1 == m then (kv.1, kv.2 + 1) else kv)
  else d ++ [(m, 1)]

def modeDistAux (d : List (String × ℕ)) : List RetrievalResult → List (String × ℕ)
  | [] => d
  | r :: rest => modeDistAux (bumpMode d r.query_mode) rest

def sumBy (f : RetrievalResult → ℕ) (rs : List RetrievalResult) : ℕ :=
  rs.foldl (fun t r => t + f r) 0

def noResults (r : RetrievalResult) : Bool :=
  r.entities.isEmpty && r.relationships.isEmpty && r.text_chunks.isEmpty

/-- Round `n / d` to a multiple of `2 ^ g`, ties to even: scale to an
integer division and round the quotient. -/
def roundAt (n d : ℕ) (g : ℤ) : ℕ :=
  let N := n * 2 ^ (-g).toNat
  let D := d * 2 ^ g.toNat
  if 2 * (N % D) < D then N / D
  else if D < 2 * (N % D) then N / D + 1
  else if (N / D) % 2 = 0 then N / D else N / D + 1

/-- The rational value `M * 2 ^ g`. -/
def dyadic (M : ℕ) (g : ℤ) : ℚ :=
  if 0 ≤ g then ((M * 2 ^ g.toNat : ℕ) : ℚ) else mkRat (M : ℤ) (2 ^ (-g).toNat)

/-- The floor of the base-2 logarithm of `n / d`, for `1 ≤ n` and `1 ≤ d`. -/
def quotExp (n d : ℕ) : ℤ :=
  if d ≤ n then (KG.bitLen (n / d) : ℤ) - 1
  else
    let j := KG.bitLen d - KG.bitLen n
    if d ≤ n * 2 ^ j then -(j : ℤ) else -((j : ℤ) + 1)

/-- `n / d` as CPython's `int / int` true division computes it: the
binary64 double nearest the exact rational (ties to even, subnormals
included).  `none` is the case where the division raises instead of
returning a float (a zero divisor, or overflow past the double range). -/
def floatDivNat (n d : ℕ) : Option ℚ :=
  if d = 0 then none
  else if n = 0 then some 0
  else
    let g : ℤ := max (quotExp n d - 52) (-1074)
    let v : ℚ := dyadic (roundAt n d g) g
    if v < ((2 ^ 1024 : ℕ) : ℚ) then some v else none

/-- `get_statistics`: an empty mapping (here `none`) when no records load,
otherwise the aggregate record with binary64-rounded means; if one of the
divisions raises, no mapping is produced. -/
def get_statistics (fs : LogFS) (path : String) : Option RetrievalStats :=
  let results := load_logs fs path
  if results.isEmpty then none
  else
    match floatDivNat (sumBy (fun r => r.entities.length) results) results.length,
        floatDivNat (sumBy (fun r => r.relationships.length) results) results.length,
        floatDivNat (sumBy (fun r => r.text_chunks.length) results) results.length with
    | some ae, some ar, some ac =>
      some
        { total_queries := results.length
          mode_distribution := modeDistAux [] results
          avg_entities_per_query := ae
          avg_relationships_per_query := ar
          avg_chunks_per_query := ac
          queries_with_no_results := results.countP noResults }
    | _, _, _ => none

/-- Distinct values in first-occurrence order (Python dict key order). -/
def firstOccs : List String → List String
  | [] => []
  | m :: rest => m :: (firstOccs rest).filter (fun x => !(x == m))

end RL

/-! ## Lemmas about the validator -/

namespace KG

lemma checkEntities_ok_iff (es : List Entity) :
    checkEntities es = .ok () ↔ ∀ e ∈ es, ¬(e.entity_name = "" ∨ e.entity_type = "") := by
  induction es with
  | nil => simp [checkEntities]
  | cons e rest ih =>
    by_cases h1 : e.entity_name = ""
    · simp [checkEntities, h1]
    · by_cases h2 : e.entity_type = ""
      · simp [checkEntities, h1, h2]
      · simp [checkEntities, h1, h2, ih]

lemma checkRelationships_ok_iff (rs : List Relationship) :
    checkRelationships rs = .ok () ↔ ∀ r ∈ rs, ¬(r.src_id = "" ∨ r.tgt_id = "") := by
  induction rs with
  | nil => simp [checkRelationships]
  | cons r rest ih =>
    by_cases h1 : r.src_id = ""
    · simp [checkRelationships, h1]
    · by_cases h2 : r.tgt_id = ""
      · simp [checkRelationships, h1, h2]
      · simp [checkRelationships, h1, h2, ih]

lemma validate_ok_iff (es : List Entity) (rs : List Relationship) (cs : List Chunk) :
    validate_kg_data es rs cs = .ok () ↔ ¬ integrityViolation es rs cs := by
  have hsplit : validate_kg_data es rs cs = .ok () ↔
      checkEntities es = .ok () ∧ checkRelationships rs = .ok () ∧ ¬(cs = []) := by
    unfold validate_kg_data
    cases hE : checkEntities es with
    | error m => simp [hE]
    | ok u =>
      cases u
      cases hR : checkRelationships rs with
      | error m => simp [hR]
      | ok u2 =>
        cases u2
        by_cases hc : cs = [] <;> simp [hc]
  rw [hsplit, checkEntities_ok_iff, checkRelationships_ok_iff]
  unfold integrityViolation
  push_neg
  simp

lemma validate_not_ok_of_error (es : List Entity) (rs : List Relationship) (cs : List Chunk)
    (m : String) (h : validate_kg_data es rs cs = .error m) :
    ¬ validate_kg_data es rs cs = .ok () := by
  rw [h]; intro hc; cases hc

/-- C1: the parse raises a data-integrity error if and only if some
extracted entity has an empty name or type, some extracted relationship has
an empty endpoint, or no chunk records were produced; and in that case no
payload is returned. -/
theorem parse_error_iff_integrity (txt : List Char) :
    ((∃ msg, parse_kg_from_txt txt = .error msg) ↔
        integrityViolation (extractedEntities txt) (extractedRels txt) (extractedChunks txt)) ∧
    (integrityViolation (extractedEntities txt) (extractedRels txt) (extractedChunks txt) →
        ∀ p, ¬ parse_kg_from_txt txt = .ok p) := by
  unfold parse_kg_from_txt
  cases hv : validate_kg_data (extractedEntities txt) (extractedRels txt) (extractedChunks txt) with
  | error m =>
    have hviol : integrityViolation (extractedEntities txt) (extractedRels txt)
        (extractedChunks txt) := by
      by_contra hno
      exact validate_not_ok_of_error _ _ _ m hv ((validate_ok_iff _ _ _).2 hno)
    exact ⟨by simp [hviol], fun _ p h => by cases h⟩
  | ok u =>
    cases u
    have hno := (validate_ok_iff _ _ _).1 hv
    exact ⟨by simp [hno], fun hviol => absurd hviol hno⟩

/-! ## Lemmas about missing-reference detection -/

lemma missStep_eq (es : List Entity) (m : Finset String) (r : Relationship) :
    missStep es m r = m ∪ ({r.src_id, r.tgt_id} \ entityNames es) := by
  unfold missStep
  split_ifs with h1 h2 h2 <;>
    · ext x
      by_cases hx1 : x = r.src_id <;> by_cases hx2 : x = r.tgt_id <;>
        simp_all [Finset.mem_union, Finset.mem_sdiff, Finset.mem_insert,
          Finset.mem_singleton]

lemma missFold_eq (es : List Entity) (rs : List Relationship) :
    ∀ acc : Finset String,
      rs.foldl (missStep es) acc = acc ∪ (relEndpoints rs \ entityNames es) := by
  induction rs with
  | nil => intro acc; simp [relEndpoints]
  | cons r rest ih =>
    intro acc
    rw [List.foldl_cons, ih, missStep_eq]
    ext x
    simp only [relEndpoints, Finset.mem_union, Finset.mem_sdiff, List.toFinset_cons,
      Finset.mem_insert, Finset.mem_singleton, List.map_cons, List.mem_toFinset]
    constructor
    · intro hx; tauto
    · intro hx; tauto

lemma missingEntities_eq (es : List Entity) (rs : List Relationship) :
    missingEntities es rs = relEndpoints rs \ entityNames es := by
  unfold missingEntities
  rw [missFold_eq]
  exact Finset.empty_union _

/-- C2: the missing-reference set computed by the validator is exactly the
set difference between relationship endpoints and entity names, and when no
data-integrity violation exists the parse succeeds with every extracted
relationship kept in the payload. -/
theorem missing_refs_diff_never_fatal (txt : List Char)
    (h : ¬ integrityViolation (extractedEntities txt) (extractedRels txt) (extractedChunks txt)) :
    missingEntities (extractedEntities txt) (extractedRels txt)
        = relEndpoints (extractedRels txt) \ entityNames (extractedEntities txt) ∧
    parse_kg_from_txt txt =
      .ok ⟨extractedEntities txt, extractedRels txt, extractedChunks txt⟩ := by
  refine ⟨missingEntities_eq _ _, ?_⟩
  unfold parse_kg_from_txt
  rw [(validate_ok_iff _ _ _).2 h]

def sampleC2 : List Char :=
  ("No.: 1 of all the chunks\noriginal text: T total tokens: 1\n" ++
   "(\"entity\"|A|TYPE|d)\n(\"relationship\"|A|B|rd|7|kw)\n").data

theorem missing_refs_diff_never_fatal_witness :
    missingEntities (extractedEntities sampleC2) (extractedRels sampleC2)
        = relEndpoints (extractedRels sampleC2) \ entityNames (extractedEntities sampleC2) ∧
    parse_kg_from_txt sampleC2 =
      .ok ⟨extractedEntities sampleC2, extractedRels sampleC2, extractedChunks sampleC2⟩ :=
  missing_refs_diff_never_fatal sampleC2 (by decide)

/-! ## The splitter's empty-segment skipping -/

lemma processPieces_eq_filtered (l : List (List Char × List Char)) :
    processPieces l = processPiecesAll (l.filter (fun p => !(stripChars p.2).isEmpty)) := by
  induction l with
  | nil => rfl
  | cons p rest ih =>
    obtain ⟨ds, seg⟩ := p
    by_cases h : (stripChars seg).isEmpty
    · simp [processPieces, List.filter_cons, h, ih]
    · simp [processPieces, processPiecesAll, List.filter_cons, h, ih]

lemma length_filter_not_add_countP {α : Type} (p : α → Bool) (l : List α) :
    (l.filter (fun x => !p x)).length + l.countP p = l.length := by
  induction l with
  | nil => rfl
  | cons x rest ih =>
    by_cases h : p x
    · simp [List.filter_cons, List.countP_cons, h]
      omega
    · simp [List.filter_cons, List.countP_cons, h]
      omega

/-- C6: the parse loop processes exactly the split segments whose trimmed
text is non-empty (an empty segment contributes no chunk, entity or
relationship records), so the number of processed segments is the marker
count minus the number of empty segments. -/
theorem splitter_skips_empty_segments (txt : List Char) :
    processPieces (splitChunks txt)
        = processPiecesAll ((splitChunks txt).filter (fun p => !(stripChars p.2).isEmpty)) ∧
    ((splitChunks txt).filter (fun p => !(stripChars p.2).isEmpty)).length
        = (splitChunks txt).length
            - (splitChunks txt).countP (fun p => (stripChars p.2).isEmpty) := by
  refine ⟨processPieces_eq_filtered _, ?_⟩
  have := length_filter_not_add_countP (fun p => (stripChars p.2).isEmpty) (splitChunks txt)
  omega

/-! ## Well-formed three-field entity records round-trip exactly -/

lemma lit?_self_append (l r : List Char) : lit? l (l ++ r) = some r := by
  induction l with
  | nil => rfl
  | cons c cs ih => simp [lit?, ih]

lemma upToPipe_append (a r : List Char) (ha : '|' ∉ a) :
    upToPipe (a ++ '|' :: r) = some (a, r) := by
  induction a with
  | nil => simp [upToPipe]
  | cons x a' ih =>
    have hx : (x == '|') = false :=
      beq_eq_false_iff_ne.2 fun h => ha (h ▸ List.mem_cons_self _ _)
    have ha' : '|' ∉ a' := fun h => ha (List.mem_cons_of_mem _ h)
    simp [upToPipe, hx, ih ha']

lemma expectPipe_cons (r : List Char) : expectPipe ('|' :: r) = some r := rfl

lemma pipeField_append (a r : List Char) (ha : '|' ∉ a) :
    pipeField (a ++ '|' :: r) = some (stripChars a, r) := by
  simp [pipeField, upToPipe_append a r ha]

lemma tryClose_none_of_head (s : List Char) (y : Char) (t : List Char)
    (h : s.dropWhile isWs = y :: t) (hy : y ≠ ')') : tryClose s = none := by
  unfold tryClose
  rw [h]
  split
  · rename_i u heq
    injection heq with h1 _
    exact absurd h1 hy
  · rfl

lemma revDrop_tail (x : Char) (c' : List Char)
    (h : ((x :: c').reverse).dropWhile isWs = (x :: c').reverse) :
    (c'.reverse).dropWhile isWs = c'.reverse := by
  rw [List.reverse_cons, List.dropWhile_append] at h
  by_cases he : ((c'.reverse).dropWhile isWs).isEmpty
  · rw [if_pos he] at h
    have h1 : ([x].dropWhile isWs).length ≤ 1 := by
      cases hw : isWs x <;> simp [List.dropWhile_cons, hw]
    have h2 : (c'.reverse ++ [x]).length ≤ 1 := by rw [← h]; exact h1
    have h3 : c'.length + 1 ≤ 1 := by simpa using h2
    have hc : c' = [] := List.length_eq_zero.1 (by omega)
    subst hc
    rfl
  · rw [if_neg he] at h
    exact List.append_cancel_right h

lemma revDrop_all_ws_absurd (x : Char) (c' : List Char)
    (h : ((x :: c').reverse).dropWhile isWs = (x :: c').reverse)
    (hx : isWs x = true) (hall : ((c'.dropWhile isWs)).isEmpty = true) : False := by
  have hws : ∀ y ∈ x :: c', isWs y = true := by
    intro y hy
    rcases List.mem_cons.1 hy with rfl | hy2
    · exact hx
    · exact List.dropWhile_eq_nil_iff.1 (List.isEmpty_iff.1 hall) y hy2
  have hnil : ((x :: c').reverse).dropWhile isWs = [] :=
    List.dropWhile_eq_nil_iff.2 fun y hy => hws y (List.mem_reverse.1 hy)
  rw [h] at hnil
  simp at hnil

lemma descScan_closes :
    ∀ c : List Char, ')' ∉ c → '\n' ∉ c →
      ((c.reverse).dropWhile isWs = c.reverse) →
      ∀ acc, descScan acc (c ++ [')']) = some (acc.reverse ++ c, []) := by
  intro c
  induction c with
  | nil =>
    intro _ _ _ acc
    simp [descScan, tryClose, lookaheadEnt, isWs]
  | cons x c' ih =>
    intro hp hn hrev acc
    have hp' : ')' ∉ c' := fun h => hp (List.mem_cons_of_mem _ h)
    have hn' : '\n' ∉ c' := fun h => hn (List.mem_cons_of_mem _ h)
    have hxp : x ≠ ')' := fun h => hp (h ▸ List.mem_cons_self _ _)
    have hxn : (x == '\n') = false :=
      beq_eq_false_iff_ne.2 fun h => hn (h ▸ List.mem_cons_self _ _)
    have hrev' := revDrop_tail x c' hrev
    have htc : tryClose (x :: (c' ++ [')'])) = none := by
      cases hw : isWs x
      · refine tryClose_none_of_head _ x (c' ++ [')']) ?_ hxp
        rw [List.dropWhile_cons, if_neg (by simp [hw])]
      · by_cases hall : ((c'.dropWhile isWs)).isEmpty
        · exact (revDrop_all_ws_absurd x c' hrev hw hall).elim
        · obtain ⟨y, t, hyt⟩ : ∃ y t, c'.dropWhile isWs = y :: t := by
            cases hd : c'.dropWhile isWs with
            | nil => rw [hd] at hall; simp at hall
            | cons y t => exact ⟨y, t, rfl⟩
          have hy_mem : y ∈ c' :=
            (List.dropWhile_suffix isWs).subset (hyt ▸ List.mem_cons_self _ _)
          refine tryClose_none_of_head _ y (t ++ [')']) ?_ (fun h => hp' (h ▸ hy_mem))
          rw [List.dropWhile_cons, if_pos (by simp [hw]), List.dropWhile_append,
            if_neg (by simp [hall]), hyt, List.cons_append]
    rw [List.cons_append]
    simp only [descScan, htc, hxn]
    rw [ih hp' hn' hrev' (x :: acc)]
    simp [List.reverse_cons, List.append_assoc]

lemma strip_eq_self_parts (c : List Char) (h : stripChars c = c) :
    c.dropWhile isWs = c ∧ (c.reverse).dropWhile isWs = c.reverse := by
  unfold stripChars at h
  have hsuf : c.dropWhile isWs <:+ c := List.dropWhile_suffix isWs
  have hsuf2 : ((c.dropWhile isWs).reverse).dropWhile isWs <:+ (c.dropWhile isWs).reverse :=
    List.dropWhile_suffix isWs
  have hlen_e : (((c.dropWhile isWs).reverse).dropWhile isWs).length = c.length := by
    have := congrArg List.length h
    simpa using this
  have hlen_d : (c.dropWhile isWs).length = c.length := by
    have h1 := hsuf.length_le
    have h2 := hsuf2.length_le
    rw [List.length_reverse] at h2
    omega
  have hdc : c.dropWhile isWs = c := hsuf.eq_of_length hlen_d
  refine ⟨hdc, ?_⟩
  have he : ((c.dropWhile isWs).reverse).dropWhile isWs = (c.dropWhile isWs).reverse :=
    hsuf2.eq_of_length (by rw [hlen_e, List.length_reverse, hlen_d])
  rw [hdc] at he
  exact he

lemma entBody_fields (a b c : List Char)
    (ha : '|' ∉ a) (hb : '|' ∉ b) (hcp : ')' ∉ c) (hcn : '\n' ∉ c)
    (hsa : stripChars a = a) (hsb : stripChars b = b) (hsc : stripChars c = c) :
    entBody ('|' :: (a ++ '|' :: (b ++ '|' :: (c ++ [')'])))) = some ((a, b, c), []) := by
  obtain ⟨hcd, hcr⟩ := strip_eq_self_parts c hsc
  have hdrop : (c ++ [')']).dropWhile isWs = c ++ [')'] := by
    rw [List.dropWhile_append]
    by_cases hce : (c.dropWhile isWs).isEmpty
    · have hc0 : c = [] := by rw [hcd] at hce; exact List.isEmpty_iff.1 hce
      subst hc0
      rfl
    · rw [if_neg hce, hcd]
  simp only [entBody, expectPipe_cons, pipeField_append a _ ha, pipeField_append b _ hb,
    hsa, hsb, hdrop, descScan_closes c hcp hcn hcr [], List.reverse_nil, List.nil_append,
    hsc]

lemma scanEntAux_single (body : List Char) (e : List Char × List Char × List Char)
    (hbody : entBody body = some (e, [])) (fuel : ℕ) :
    scanEntAux (fuel + 1) (entLit ++ body) = [e] := by
  have hcons : entLit ++ body = '(' :: ("\"entity\"".data ++ body) := rfl
  have hlit : lit? entLit ('(' :: ("\"entity\"".data ++ body)) = some body := by
    rw [← hcons]; exact lit?_self_append _ _
  rw [hcons]
  simp only [scanEntAux, hlit, hbody]
  cases fuel <;> rfl

/-- One well-formed entity record, as chunk text. -/
def entRecordText (a b c : List Char) : List Char :=
  entLit ++ '|' :: (a ++ '|' :: (b ++ '|' :: (c ++ [')'])))

lemma scanEntities_single (a b c : List Char)
    (ha : '|' ∉ a) (hb : '|' ∉ b) (hcp : ')' ∉ c) (hcn : '\n' ∉ c)
    (hsa : stripChars a = a) (hsb : stripChars b = b) (hsc : stripChars c = c) :
    scanEntities (entRecordText a b c) = [(a, b, c)] := by
  unfold scanEntities entRecordText
  have hpos : (entLit ++ '|' :: (a ++ '|' :: (b ++ '|' :: (c ++ [')'])))).length
      = ((entLit ++ '|' :: (a ++ '|' :: (b ++ '|' :: (c ++ [')'])))).length - 1) + 1 := by
    simp [entLit]
  rw [hpos]
  exact scanEntAux_single _ _ (entBody_fields a b c ha hb hcp hcn hsa hsb hsc) _

/-! ## Field-count behaviour of record extraction -/

/-- Extracted entity triples of a chunk text, as strings. -/
def entityTriples (s : String) : List (String × String × String) :=
  (scanEntities s.data).map fun t => (t.1.asString, t.2.1.asString, t.2.2.asString)

/-- Extracted relationship 5-tuples of a chunk text, as strings
(src, tgt, description, weight digits, keywords). -/
def relTuples (s : String) : List (String × String × String × String × String) :=
  (scanRelationships s.data).map fun t =>
    (t.1.asString, t.2.1.asString, t.2.2.1.asString, t.2.2.2.1.asString, t.2.2.2.2.asString)

/-- C4 counterexample: a parenthesized entity record with four
pipe-delimited fields after the tag is not skipped — it produces an
extracted record whose description absorbs the extra field. -/
theorem entity_four_fields_extracted :
    entityTriples "(\"entity\"|a|b|c|d)" = [("a", "b", "c|d")] := by decide

/-- C4 amended: entity extraction accepts the parenthesized records tagged
"entity" with three or more pipe-delimited fields after the tag.  A record
whose first two fields are pipe-free and whose remainder contains no close
parenthesis or newline round-trips its three trimmed fields exactly;
records with fewer fields than the expected shape (or a non-numeral
weight) are silently skipped and produce no record, while records with
surplus fields are extracted with the surplus absorbed into the final
captured field (description for entities, keywords for relationships). -/
theorem field_count_behavior :
    (∀ a b c : List Char, '|' ∉ a → '|' ∉ b → ')' ∉ c → '\n' ∉ c →
        stripChars a = a → stripChars b = b → stripChars c = c →
        scanEntities (entRecordText a b c) = [(a, b, c)]) ∧
    entityTriples "(\"entity\"|a|b|c)" = [("a", "b", "c")] ∧
    entityTriples "(\"entity\"|a|b)" = [] ∧
    entityTriples "(\"entity\"|a|b|c|d)" = [("a", "b", "c|d")] ∧
    relTuples "(\"relationship\"|A|B|d|7|kw)" = [("A", "B", "d", "7", "kw")] ∧
    relTuples "(\"relationship\"|A|B|d|7)" = [] ∧
    relTuples "(\"relationship\"|A|B|d|7|k1|k2)" = [("A", "B", "d", "7", "k1|k2")] ∧
    relTuples "(\"relationship\"|A|B|d|x|kw)" = [] :=
  ⟨fun a b c ha hb hcp hcn hsa hsb hsc => scanEntities_single a b c ha hb hcp hcn hsa hsb hsc,
   by decide, by decide, by decide, by decide, by decide, by decide, by decide⟩

/-! ## Orphan source ids -/

instance exceptDecEq {ε α : Type} [DecidableEq ε] [DecidableEq α] : DecidableEq (Except ε α)
  | .error a, .error b =>
    if h : a = b then .isTrue (by rw [h]) else .isFalse fun hc => h (Except.error.inj hc)
  | .error _, .ok _ => .isFalse fun hc => Except.noConfusion hc
  | .ok _, .error _ => .isFalse fun hc => Except.noConfusion hc
  | .ok a, .ok b =>
    if h : a = b then .isTrue (by rw [h]) else .isFalse fun hc => h (Except.ok.inj hc)

def sampleC9 : List Char :=
  ("No.: 1 of all the chunks\n(\"entity\"|Alpha|TYPE|desc)\n" ++
   "No.: 2 of all the chunks\noriginal text: Body text total tokens: 5\n").data

set_option maxRecDepth 8000 in
/-- C9: a non-empty segment without the `original text:` label emits no
chunk record but is still scanned for entities and relationships, so a
successful parse can return entities whose `source_id` matches no chunk. -/
theorem orphan_source_ids_possible :
    parse_kg_from_txt sampleC9 =
      .ok ⟨[⟨"Alpha", "TYPE", "desc", "chunk_1"⟩], [], [⟨"Body text", "chunk_2", 2⟩]⟩ ∧
    (extractedEntities sampleC9).map (·.source_id) = ["chunk_1"] ∧
    ¬ "chunk_1" ∈ (extractedChunks sampleC9).map (·.source_id) :=
  ⟨by decide, by decide, by decide⟩

/-! ## Binary64 rounding of the weight -/

lemma bitLenAux_le_iff : ∀ f n k : ℕ, n ≤ f → (bitLenAux f n ≤ k ↔ n < 2 ^ k) := by
  intro f
  induction f with
  | zero =>
    intro n k hn
    have h0 : n = 0 := Nat.le_zero.1 hn
    subst h0
    simp [bitLenAux, Nat.pos_pow_of_pos, pow_pos]
  | succ f ih =>
    intro n k hn
    by_cases h0 : n = 0
    · subst h0
      simp [bitLenAux, pow_pos]
    · have hrec : bitLenAux (f + 1) n = bitLenAux f (n / 2) + 1 := by
        simp [bitLenAux, h0]
      rw [hrec]
      cases k with
      | zero => constructor <;> intro h <;> omega
      | succ k =>
        have hle : n / 2 ≤ f := by omega
        rw [pow_succ, ← Nat.div_lt_iff_lt_mul (by norm_num : 0 < 2), ← ih (n / 2) k hle]
        omega

lemma bitLen_le_iff (n k : ℕ) : bitLen n ≤ k ↔ n < 2 ^ k :=
  bitLenAux_le_iff n n k le_rfl

lemma roundB64_eq_self (n : ℕ) (h : n < 2 ^ 53) : roundB64 n = n := by
  unfold roundB64
  rw [if_pos ((bitLen_le_iff n 53).2 h)]

set_option maxRecDepth 8000 in
/-- C8 amended: for every captured weight digit string whose numeric value
is at most 2^53 (the exactly-representable binary64 range), the stored
weight equals that numeric value exactly. -/
theorem relWeight_exact_below_2pow53 (ds : List Char) (h : natOfDigits ds ≤ 2 ^ 53) :
    relWeight ds = some (natOfDigits ds) := by
  rcases Nat.lt_or_ge (natOfDigits ds) (2 ^ 53) with hlt | hge
  · unfold relWeight floatOfNat
    rw [roundB64_eq_self _ hlt,
      if_pos (lt_trans hlt (Nat.pow_lt_pow_right (by norm_num) (by norm_num)))]
  · have heq : natOfDigits ds = 2 ^ 53 := le_antisymm h hge
    unfold relWeight
    rw [heq]
    decide

set_option maxRecDepth 8000 in
theorem relWeight_exact_below_2pow53_witness :
    natOfDigits ("7".data) ≤ 2 ^ 53 ∧ relWeight ("7".data) = some (natOfDigits ("7".data)) :=
  ⟨by decide, relWeight_exact_below_2pow53 ("7".data) (by decide)⟩

set_option maxRecDepth 8000 in
/-- C8 counterexample: a relationship record whose weight field is the
digit string 9007199254740993 (= 2^53 + 1) is extracted with stored weight
9007199254740992 — not the numeric value of the integer literal. -/
theorem weight_not_exact_counterexample :
    natOfDigits ("9007199254740993".data) = 9007199254740993 ∧
    (relRecs ("1".data) ("(\"relationship\"|A|B|d|9007199254740993|kw)".data)).map (·.weight)
        = [some 9007199254740992] :=
  ⟨by decide, by decide⟩

end KG

/-! ## Log store: round-trip, load failures, export, statistics -/

namespace RL

lemma strsOf_map_str (l : List String) : strsOf (l.map Json.str) = some l := by
  induction l with
  | nil => rfl
  | cons s rest ih => simp [strsOf, ih]

lemma fromJson_toJson (r : RetrievalResult) : fromJson (toJson r) = some r := by
  obtain ⟨q, qm, ts, en, re, tc, hk, lk, md, fr⟩ := r
  cases fr <;>
    simp [toJson, fromJson, rrFields, List.lookup, asStr, asNum, asArr, asStrList,
      strsOf_map_str, frOf]

lemma foldl_log (rs : List RetrievalResult) :
    ∀ acc : List Json, rs.foldl log_retrieval acc = acc ++ rs.map toJson := by
  induction rs with
  | nil => intro acc; simp
  | cons r rest ih => intro acc; simp [log_retrieval, ih]

lemma decodeAll_map_toJson (rs : List RetrievalResult) :
    decodeAll (rs.map toJson) = some rs := by
  induction rs with
  | nil => rfl
  | cons r rest ih => simp [decodeAll, fromJson_toJson, ih]

/-- C3: appending K records to a fresh session file with `log_retrieval`
and then loading that same file returns exactly those K records,
field-for-field equal and in order. -/
theorem log_load_roundtrip (rs : List RetrievalResult) (name : String) :
    load_logs [(name, rs.foldl log_retrieval [])] name = rs ∧
    (rs.foldl log_retrieval []).length = rs.length := by
  constructor
  · simp [load_logs, List.lookup, load_logs_lines, foldl_log, decodeAll_map_toJson]
  · simp [foldl_log]

lemma decodeAll_eq_none :
    ∀ lines : List Json, (∃ j ∈ lines, fromJson j = none) → decodeAll lines = none := by
  intro lines
  induction lines with
  | nil => rintro ⟨j, hj, hfj⟩; cases hj
  | cons a rest ih =>
    rintro ⟨j, hj, hfj⟩
    rcases List.mem_cons.1 hj with rfl | hj2
    · simp [decodeAll, hfj]
    · cases hfa : fromJson a with
      | none => simp [decodeAll, hfa]
      | some r => simp [decodeAll, hfa, ih ⟨j, hj2, hfj⟩]

/-- C5: loading a missing file returns an empty list, and a file with any
line that fails to deserialize loads as an empty list — never a partial
list. -/
theorem load_logs_missing_or_malformed (fs : LogFS) (path : String) :
    (List.lookup path fs = none → load_logs fs path = []) ∧
    (∀ lines, List.lookup path fs = some lines →
      (∃ j ∈ lines, fromJson j = none) → load_logs fs path = []) := by
  constructor
  · intro h; simp [load_logs, h]
  · intro lines h hbad
    simp [load_logs, h, load_logs_lines, decodeAll_eq_none lines hbad]

def rr0 : RetrievalResult :=
  ⟨"q", "local", 0, [], [], [], [], [], .obj [], none⟩

def fsC5 : LogFS := [("retrieval_log_1.jsonl", [toJson rr0, Json.num 1])]

theorem load_logs_missing_or_malformed_witness :
    load_logs fsC5 "absent.jsonl" = [] ∧ load_logs fsC5 "retrieval_log_1.jsonl" = [] :=
  ⟨(load_logs_missing_or_malformed fsC5 "absent.jsonl").1 rfl,
   (load_logs_missing_or_malformed fsC5 "retrieval_log_1.jsonl").2 _ rfl
     ⟨Json.num 1, List.mem_cons_of_mem _ (List.mem_cons_self _ _), rfl⟩⟩

/-- C10: exporting from an explicitly named missing source file still
writes the output file with an empty JSON array, while directory mode with
no matching session logs writes nothing. -/
theorem export_missing_source_vs_empty_dir (fs : LogFS) (src : String) :
    (List.lookup src fs = none → export_to_json fs (some src) = some []) ∧
    (globLogs (fs.map Prod.fst) = [] → export_to_json fs none = none) := by
  constructor
  · intro h; simp [export_to_json, load_logs, h]
  · intro h; simp [export_to_json, h]

def fsC10 : LogFS := [("notes.txt", [Json.null])]

theorem export_missing_source_vs_empty_dir_witness :
    export_to_json fsC10 (some "retrieval_log_9.jsonl") = some [] ∧
    export_to_json fsC10 none = none :=
  ⟨(export_missing_source_vs_empty_dir fsC10 "retrieval_log_9.jsonl").1 rfl,
   (export_missing_source_vs_empty_dir fsC10 "retrieval_log_9.jsonl").2 (by decide)⟩

end RL

/-! ## Statistics correctness -/

namespace RL

lemma keyMem_nil (m : String) : keyMem [] m = false := rfl

lemma keyMem_cons (k : String) (v : ℕ) (d : List (String × ℕ)) (m : String) :
    keyMem ((k, v) :: d) m = ((k == m) || keyMem d m) := rfl

lemma lookup_cons_true {β : Type} (m k : String) (v : β) (d : List (String × β))
    (h : (m == k) = true) : List.lookup m ((k, v) :: d) = some v := by
  simp [List.lookup, h]

lemma lookup_cons_false {β : Type} (m k : String) (v : β) (d : List (String × β))
    (h : (m == k) = false) : List.lookup m ((k, v) :: d) = List.lookup m d := by
  simp [List.lookup, h]

lemma lookup_map_upd (m0 m : String) :
    ∀ d : List (String × ℕ),
      (((d.map (fun kv => if kv.1 == m0 then (kv.1, kv.2 + 1) else kv)).lookup m).getD 0)
        = ((d.lookup m).getD 0) + (if (m == m0) && keyMem d m then 1 else 0) := by
  intro d
  induction d with
  | nil => simp [keyMem]
  | cons kv d' ih =>
    obtain ⟨k, v⟩ := kv
    by_cases h0 : k = m0
    · have hhead : (if ((k, v).1 == m0) = true then ((k, v).1, (k, v).2 + 1) else (k, v))
          = (k, v + 1) := by simp [beq_iff_eq.mpr h0]
      rw [List.map_cons, hhead]
      by_cases hm : m = k
      · have e2 : (m == k) = true := beq_iff_eq.mpr hm
        have e4 : (m == m0) = true := beq_iff_eq.mpr (hm.trans h0)
        have e5 : (k == m) = true := beq_iff_eq.mpr hm.symm
        rw [lookup_cons_true m k (v + 1) _ e2, lookup_cons_true m k v _ e2, keyMem_cons]
        simp [e4, e5]
      · have e2 : (m == k) = false := beq_eq_false_iff_ne.2 hm
        have e5 : (k == m) = false := beq_eq_false_iff_ne.2 (Ne.symm hm)
        rw [lookup_cons_false m k (v + 1) _ e2, lookup_cons_false m k v _ e2, keyMem_cons,
          ih]
        simp [e5]
    · have hhead : (if ((k, v).1 == m0) = true then ((k, v).1, (k, v).2 + 1) else (k, v))
          = (k, v) := by simp [beq_eq_false_iff_ne.2 h0]
      rw [List.map_cons, hhead]
      by_cases hm : m = k
      · have e2 : (m == k) = true := beq_iff_eq.mpr hm
        have e4 : (m == m0) = false :=
          beq_eq_false_iff_ne.2 (fun he => h0 (hm.symm.trans he))
        rw [lookup_cons_true m k v _ e2, lookup_cons_true m k v _ e2]
        simp [e4]
      · have e2 : (m == k) = false := beq_eq_false_iff_ne.2 hm
        have e5 : (k == m) = false := beq_eq_false_iff_ne.2 (Ne.symm hm)
        rw [lookup_cons_false m k v _ e2, lookup_cons_false m k v _ e2, keyMem_cons, ih]
        simp [e5]

lemma lookup_append_single (m0 m : String) :
    ∀ d : List (String × ℕ),
      (((d ++ [(m0, 1)]).lookup m).getD 0)
        = ((d.lookup m).getD 0) + (if (m == m0) && !keyMem d m then 1 else 0) := by
  intro d
  induction d with
  | nil =>
    by_cases h0 : m = m0
    · have e : (m == m0) = true := beq_iff_eq.mpr h0
      rw [List.nil_append, lookup_cons_true m m0 1 [] e]
      simp [e, keyMem_nil]
    · have e : (m == m0) = false := beq_eq_false_iff_ne.2 h0
      rw [List.nil_append, lookup_cons_false m m0 1 [] e]
      simp [e]
  | cons kv d' ih =>
    obtain ⟨k, v⟩ := kv
    rw [List.cons_append]
    by_cases hm : m = k
    · have e2 : (m == k) = true := beq_iff_eq.mpr hm
      have e5 : (k == m) = true := beq_iff_eq.mpr hm.symm
      rw [lookup_cons_true m k v _ e2, lookup_cons_true m k v _ e2, keyMem_cons]
      simp [e5]
    · have e2 : (m == k) = false := beq_eq_false_iff_ne.2 hm
      have e5 : (k == m) = false := beq_eq_false_iff_ne.2 (Ne.symm hm)
      rw [lookup_cons_false m k v _ e2, lookup_cons_false m k v _ e2, keyMem_cons, ih]
      simp [e5]

lemma bump_lookup (d : List (String × ℕ)) (m0 m : String) :
    (((bumpMode d m0).lookup m).getD 0)
      = ((d.lookup m).getD 0) + (if m == m0 then 1 else 0) := by
  unfold bumpMode
  by_cases hk : keyMem d m0
  · rw [if_pos hk, lookup_map_upd]
    by_cases h0 : m = m0
    · have hkm : keyMem d m = true := by rw [h0]; exact hk
      simp [beq_iff_eq.mpr h0, hkm]
    · simp [beq_eq_false_iff_ne.2 h0]
  · rw [if_neg hk, lookup_append_single]
    by_cases h0 : m = m0
    · have hkm : keyMem d m = false := by rw [h0]; exact Bool.eq_false_iff.mpr hk
      simp [beq_iff_eq.mpr h0, hkm]
    · simp [beq_eq_false_iff_ne.2 h0]

lemma modeDist_lookup :
    ∀ (rs : List RetrievalResult) (d : List (String × ℕ)) (m : String),
      (((modeDistAux d rs).lookup m).getD 0)
        = ((d.lookup m).getD 0) + rs.countP (fun r => r.query_mode == m) := by
  intro rs
  induction rs with
  | nil => intro d m; simp [modeDistAux]
  | cons r t ih =>
    intro d m
    rw [show modeDistAux d (r :: t) = modeDistAux (bumpMode d r.query_mode) t from rfl,
      ih, bump_lookup, List.countP_cons]
    have hsymm : (m == r.query_mode) = (r.query_mode == m) := by
      by_cases h : m = r.query_mode
      · subst h; rfl
      · rw [beq_eq_false_iff_ne.2 h, beq_eq_false_iff_ne.2 (Ne.symm h)]
    rw [hsymm]
    cases (r.query_mode == m) <;> simp <;> omega

lemma sumBy_eq (f : RetrievalResult → ℕ) (rs : List RetrievalResult) :
    sumBy f rs = (rs.map f).sum := by
  unfold sumBy
  suffices h : ∀ acc, rs.foldl (fun t r => t + f r) acc = acc + (rs.map f).sum by
    simpa using h 0
  induction rs with
  | nil => intro acc; simp
  | cons r t ih => intro acc; simp [ih]; omega

lemma bitLen_pos (q : ℕ) (hq : 1 ≤ q) : 1 ≤ KG.bitLen q := by
  by_contra hlt
  have h0 : KG.bitLen q ≤ 0 := by omega
  have hq1 := (KG.bitLen_le_iff q 0).1 h0
  rw [pow_zero] at hq1
  omega

/-- An integer quotient in the exactly-representable range divides back
exactly: the binary64 rounding is the identity there. -/
lemma floatDivNat_exact (q e : ℕ) (he : 1 ≤ e) (hq : q ≤ 2 ^ 53) :
    floatDivNat (q * e) e = some (q : ℚ) := by
  have he0 : ¬ e = 0 := by omega
  rcases Nat.eq_zero_or_pos q with rfl | hq0
  · simp [floatDivNat, he0]
  · have hn0 : ¬ q * e = 0 := Nat.mul_ne_zero (by omega) (by omega)
    have hdle : e ≤ q * e := Nat.le_mul_of_pos_left e hq0
    have hdiv : q * e / e = q := Nat.mul_div_cancel q (by omega)
    have hquot : quotExp (q * e) e = (KG.bitLen q : ℤ) - 1 := by
      unfold quotExp
      rw [if_pos hdle, hdiv]
    have hB1 : 1 ≤ KG.bitLen q := bitLen_pos q hq0
    have hover : ∀ m : ℕ, m ≤ 2 ^ 53 → (m : ℚ) < ((2 ^ 1024 : ℕ) : ℚ) := fun m hm =>
      Nat.cast_lt.2 (lt_of_le_of_lt hm (Nat.pow_lt_pow_right (by norm_num) (by norm_num)))
    by_cases hB : KG.bitLen q ≤ 53
    · have hg : max (quotExp (q * e) e - 52) (-1074) = (KG.bitLen q : ℤ) - 53 := by
        rw [hquot, max_eq_left (by omega)]
        ring
      have htn : (-((KG.bitLen q : ℤ) - 53)).toNat = 53 - KG.bitLen q := by omega
      have htp : ((KG.bitLen q : ℤ) - 53).toNat = 0 := by omega
      have hM : roundAt (q * e) e ((KG.bitLen q : ℤ) - 53) = q * 2 ^ (53 - KG.bitLen q) := by
        simp only [roundAt]
        rw [htn, htp, pow_zero, mul_one]
        have hN : q * e * 2 ^ (53 - KG.bitLen q) = q * 2 ^ (53 - KG.bitLen q) * e := by ring
        rw [hN, Nat.mul_mod_left, Nat.mul_div_cancel _ (by omega : 0 < e)]
        simp [show 0 < e by omega]
      have hv : dyadic (q * 2 ^ (53 - KG.bitLen q)) ((KG.bitLen q : ℤ) - 53) = (q : ℚ) := by
        rcases eq_or_lt_of_le (show (KG.bitLen q : ℤ) - 53 ≤ 0 by omega) with heq | hlt
        · have hB53 : KG.bitLen q = 53 := by omega
          unfold dyadic
          rw [hB53]
          norm_num
        · unfold dyadic
          rw [if_neg (by omega), htn, Rat.mkRat_eq_div]
          push_cast
          exact mul_div_cancel_right₀ _ (by positivity)
      simp only [floatDivNat, if_neg he0, if_neg hn0]
      rw [hg, hM, hv, if_pos (hover q hq)]
    · have hq53 : q = 2 ^ 53 := by
        have hge : 2 ^ 53 ≤ q := by
          by_contra hlt2
          exact hB ((KG.bitLen_le_iff q 53).2 (lt_of_not_le hlt2))
        exact le_antisymm hq hge
      subst hq53
      have hB2 : KG.bitLen (2 ^ 53) = 54 := by decide
      have hg : max (quotExp (2 ^ 53 * e) e - 52) (-1074) = 1 := by
        rw [hquot, hB2]
        norm_num
      have hM : roundAt (2 ^ 53 * e) e 1 = 2 ^ 52 := by
        simp only [roundAt]
        rw [show ((1 : ℤ)).toNat = 1 from rfl, show ((-1 : ℤ)).toNat = 0 from rfl,
          pow_zero, mul_one, pow_one]
        have hN : 2 ^ 53 * e = 2 ^ 52 * (e * 2) := by ring
        rw [hN, Nat.mul_mod_left, Nat.mul_div_cancel _ (by omega : 0 < e * 2)]
        simp [show 0 < e * 2 by omega]
      have hv : dyadic (2 ^ 52) 1 = ((2 ^ 53 : ℕ) : ℚ) := by
        unfold dyadic
        norm_num
      simp only [floatDivNat, if_neg he0, if_neg hn0]
      rw [hg, hM, hv, if_pos (hover (2 ^ 53) le_rfl)]

/-- C7 amended: with zero loaded records `get_statistics` returns the empty
result (no division error); otherwise, whenever the three float divisions
return finite doubles, it returns the record whose averages are the
binary64-rounded means of entities/relationships/text chunks per record —
exactly the arithmetic mean whenever that mean is an integer at most 2^53 —
whose mode distribution counts each query mode's occurrences, and whose
no-result count is the number of records with empty entities,
relationships and text chunks. -/
theorem get_statistics_spec (fs : LogFS) (path : String) (rs : List RetrievalResult)
    (h : load_logs fs path = rs) :
    (rs = [] → get_statistics fs path = none) ∧
    (∀ ae ar ac : ℚ,
      floatDivNat ((rs.map fun r => r.entities.length).sum) rs.length = some ae →
      floatDivNat ((rs.map fun r => r.relationships.length).sum) rs.length = some ar →
      floatDivNat ((rs.map fun r => r.text_chunks.length).sum) rs.length = some ac →
      rs ≠ [] →
      get_statistics fs path = some
        { total_queries := rs.length
          mode_distribution := modeDistAux [] rs
          avg_entities_per_query := ae
          avg_relationships_per_query := ar
          avg_chunks_per_query := ac
          queries_with_no_results := rs.countP noResults }) ∧
    (∀ m, (((modeDistAux [] rs).lookup m).getD 0) = rs.countP (fun r => r.query_mode == m)) ∧
    (∀ q e : ℕ, 1 ≤ e → q ≤ 2 ^ 53 → floatDivNat (q * e) e = some (q : ℚ)) := by
  refine ⟨?_, ?_, ?_, fun q e he hq => floatDivNat_exact q e he hq⟩
  · intro hnil
    unfold get_statistics
    rw [h, hnil]
    rfl
  · intro ae ar ac h1 h2 h3 hne
    have hie : rs.isEmpty = false := by
      cases hrs : rs.isEmpty
      · rfl
      · exact absurd (List.isEmpty_iff.1 hrs) hne
    have h1' : floatDivNat (sumBy (fun r => r.entities.length) rs) rs.length = some ae := by
      rw [sumBy_eq]; exact h1
    have h2' : floatDivNat (sumBy (fun r => r.relationships.length) rs) rs.length = some ar := by
      rw [sumBy_eq]; exact h2
    have h3' : floatDivNat (sumBy (fun r => r.text_chunks.length) rs) rs.length = some ac := by
      rw [sumBy_eq]; exact h3
    simp only [get_statistics, h, hie, Bool.false_eq_true, if_false, h1', h2', h3']
  · intro m
    rw [modeDist_lookup]
    simp [List.lookup]

def rr1 : RetrievalResult :=
  ⟨"q1", "local", 5, [Json.null, Json.num 2], [], [Json.null], ["hk"], [], .obj [], some "ans"⟩

def fsC7 : LogFS := [("retrieval_log_2.jsonl", [toJson rr1, toJson rr0])]

set_option maxRecDepth 8000 in
theorem get_statistics_spec_witness :
    get_statistics fsC7 "retrieval_log_2.jsonl" = some
      { total_queries := 2
        mode_distribution := modeDistAux [] [rr1, rr0]
        avg_entities_per_query := 1
        avg_relationships_per_query := 0
        avg_chunks_per_query := mkRat 1 2
        queries_with_no_results := 1 } ∧
    (((modeDistAux [] [rr1, rr0]).lookup "local").getD 0) = 2 :=
  ⟨(get_statistics_spec fsC7 "retrieval_log_2.jsonl" [rr1, rr0] rfl).2.1 1 0 (mkRat 1 2)
      (by decide) (by decide) (by decide) (List.cons_ne_nil _ _),
   ((get_statistics_spec fsC7 "retrieval_log_2.jsonl" [rr1, rr0] rfl).2.2.1 "local").trans
      (by decide)⟩

def rrE : RetrievalResult :=
  ⟨"q2", "local", 7, [Json.null], [], [], [], [], .obj [], none⟩

def fsC7x : LogFS :=
  [("retrieval_log_3.jsonl", [toJson rrE, toJson rr0, toJson rr0])]

set_option maxRecDepth 8000 in
/-- C7 counterexample: three loaded records with one entity in total have
the exact mean 1/3, but the stored `avg_entities_per_query` is the nearest
binary64 double, 6004799503160661 / 2^54, which is not 1/3. -/
theorem stats_avg_not_exact :
    get_statistics fsC7x "retrieval_log_3.jsonl" = some
      { total_queries := 3
        mode_distribution := [("local", 3)]
        avg_entities_per_query := mkRat 6004799503160661 (2 ^ 54)
        avg_relationships_per_query := 0
        avg_chunks_per_query := 0
        queries_with_no_results := 2 } ∧
    (([rrE, rr0, rr0].map fun r => (r.entities.length : ℚ)).sum) / (([rrE, rr0, rr0].length : ℚ))
        = mkRat 1 3 ∧
    mkRat 6004799503160661 (2 ^ 54) ≠ mkRat 1 3 :=
  ⟨by decide, by rw [Rat.mkRat_eq_div]; simp [rrE, rr0], by decide⟩

end RL
